import Mathlib

/-!
# Verification of the bright search service core

A shallow embedding of the parts of the `bright` repository that the
checked properties talk about, together with proofs settling each
property.

Modelling conventions, shared by all definitions below:

* Go maps (`map[string]any`, the configs map, the indexes map) are
  modelled as association lists with unique keys; lookup is
  `List.lookup`.  Where a Go map is only iterated to be sorted or
  counted afterwards, the nondeterministic iteration order is modelled
  by a deterministic first-occurrence order, which is observably
  equivalent for those uses.
* JSON values carried by documents are modelled by the inductive
  `Value`.  JSON numbers (float64 in Go) are modelled as exact integers;
  no checked property depends on float formatting.
* The external inverted-index engine (bleve) is modelled as a key/value
  store from engine-level document id to document: `batch.Index` is an
  upsert, `batch.Delete` removes the key, and a query-string search
  returns the stored documents satisfying an abstract predicate
  (`qsem filter`), in store order.  The engine's scoring and result
  order are outside the modelled claims.
* Fallible Go functions returning `error` are modelled with
  `Except String` carrying the exact `fmt.Errorf` message (string
  concatenation where the code uses format verbs).  Methods that
  mutate the store and return an error are modelled as
  `State → State × Except String Unit`: on an error return the Go code
  has not committed its batch, so the state component is unchanged.
* `strings.ToLower` is modelled by ASCII lowercasing
  (`Char.toLower`); the attribute names the properties quantify over
  are modelled as ASCII strings, where Go's Unicode simple case mapping
  agrees with it.
-/

namespace Bright

/-- A JSON-typed value stored in a document (JSON numbers are modelled
as exact integers, see the file header). -/
inductive Value where
  | vnull : Value
  | vbool : Bool → Value
  | vint : Int → Value
  | vstr : String → Value
deriving DecidableEq, Repr

/-- A document: a mapping from attribute name to JSON-typed value,
modelled as an association list (Go `map[string]any`). -/
abbrev Doc : Type := List (String × Value)

/-- Go `fmt.Sprintf` with verb `%v` on a primary-key value: strings
print themselves, booleans print `true`/`false`, integers print
unpadded decimal, `nil` prints `<nil>` (the callers reject `nil`
before formatting). -/
def goFormatValue : Value → String
  | Value.vnull => "<nil>"
  | Value.vbool true => "true"
  | Value.vbool false => "false"
  | Value.vint n => toString n
  | Value.vstr s => s

/-- ASCII lowercasing of a string, modelling `strings.ToLower` on the
ASCII attribute names in scope (file header). -/
def goToLower (s : String) : String := s.map Char.toLower

/-- The engine-level state of one index: engine document id to stored
document (the bleve index as a key/value store, see the file header). -/
abbrev Engine : Type := List (String × Doc)

/-- Generic upsert into an association list: replace the value in
place when the key is present, append otherwise.  This is the
semantics of `batch.Index(docID, doc)` on the engine and of Go map
assignment `m[k] = v`. -/
def upsert (k : String) (v : α) (e : List (String × α)) : List (String × α) :=
  if e.any (fun p => p.1 = k) then
    e.map (fun p => if p.1 = k then (k, v) else p)
  else
    e ++ [(k, v)]

/-- Apply a list of upserts in order (committing a bleve batch of
`Index` operations, or iterating Go map assignments). -/
def applyBatch (e : List (String × α)) (ps : List (String × α)) : List (String × α) :=
  ps.foldl (fun acc p => upsert p.1 p.2 acc) e

/-- Remove a key from an association list (`batch.Delete(id)` /
`index.Delete(id)` on the engine). -/
def eraseKey (k : String) (e : List (String × α)) : List (String × α) :=
  e.filter (fun p => p.1 ≠ k)

/-- Membership of a key in an association list. -/
def containsKey (k : String) (e : List (String × α)) : Bool :=
  e.any (fun p => p.1 = k)

/-- Key lookup in an association list (Go map read `m[k]`; first
occurrence wins, and the stores keep keys unique). -/
def lookupKey (k : String) : List (String × α) → Option α
  | [] => none
  | p :: e => if p.1 = k then some p.2 else lookupKey k e

/-- Per-index configuration (`models.IndexConfig` as used by the FSM
payloads: `id` and `primaryKey`). -/
structure IndexConfig where
  id : String
  primaryKey : String
deriving DecidableEq, Repr

/-- One index as held by the store: its configuration and its engine
state. -/
structure IndexData where
  config : IndexConfig
  engine : Engine
deriving DecidableEq

/-- The index store's in-memory state: index id to its data (the
`indexes` and `configs` maps of `store.IndexStore`, which are kept in
sync and are modelled as one map). -/
abbrev StoreState : Type := List (String × IndexData)

end Bright

namespace Bright

/-! ## Primary-key detection (`store.DetectPrimaryKey`) -/

/-- Does the ASCII-lowercase form of an attribute name end in
`"id"`?  (`strings.HasSuffix(strings.ToLower(attr), "id")`.) -/
def attrEndsInId (attr : String) : Bool :=
  (goToLower attr).endsWith "id"

/-- Insert into a duplicate-free candidate list (the Go code collects
candidates into a `map[string]bool`; first-occurrence order here, which
is observably equivalent because the code sorts before use). -/
def insertCandidate (c : String) (cs : List String) : List String :=
  if c ∈ cs then cs else cs ++ [c]

/-- Collect, over all sample documents, the attribute names whose
lowercase form ends in `"id"` (the candidate set of
`DetectPrimaryKey`). -/
def collectCandidates (documents : List Doc) : List String :=
  documents.foldl
    (fun cs doc => doc.foldl
      (fun cs p => if attrEndsInId p.1 then insertCandidate p.1 cs else cs) cs)
    []

/-- Go `fmt.Sprintf` with verb `%v` on a `[]string`: the elements
separated by single spaces, inside square brackets. -/
def goFormatStringSlice (l : List String) : String :=
  "[" ++ String.intercalate " " l ++ "]"

/-- `store.DetectPrimaryKey`: error on an empty sample set; collect
the candidate attribute names; return the unique candidate, or an
error for zero or for multiple candidates (the multiple-candidates
message lists the candidates sorted lexicographically). -/
def DetectPrimaryKey (documents : List Doc) : Except String String :=
  if documents = [] then
    Except.error "cannot detect primary key from empty document set"
  else
    match collectCandidates documents with
    | [] => Except.error
        "no primary key candidate found (no attribute ending with \x27id\x27)"
    | [c] => Except.ok c
    | _ :: _ :: _ => Except.error
        ("multiple primary key candidates found: " ++
          goFormatStringSlice ((collectCandidates documents).mergeSort (· ≤ ·)))

/-- What the specification says `DetectPrimaryKey` does, written from
the spec's words, for comparison with the source translation: collect
the attribute names whose lowercase form ends in `"id"`; return the
unique candidate; report the no-candidate error when none exists; list
the candidates sorted lexicographically when several exist. -/
def specDetectPrimaryKey (documents : List Doc) : Except String String :=
  match collectCandidates documents with
  | [] => Except.error
      "no primary key candidate found (no attribute ending with \x27id\x27)"
  | [c] => Except.ok c
  | cs => Except.error
      ("multiple primary key candidates found: " ++
        goFormatStringSlice (cs.mergeSort (· ≤ ·)))

end Bright

namespace Bright

/-! ## Index-store internal operations (`store/`, internal variants used by the FSM)

The internal operations are translated from `IndexStore`'s
`*Internal` methods.  Disk I/O (`saveConfigs`, index directories) and
the per-index locks are outside the modelled state; the claims are
about the document/config contents.
-/

/-- Look up an index by id (`s.indexes[indexID]` together with
`s.configs[indexID]`). -/
def getIndexData (st : StoreState) (indexID : String) : Option IndexData :=
  lookupKey indexID st

/-- Replace the data stored for an index id. -/
def setIndexData (st : StoreState) (indexID : String) (d : IndexData) : StoreState :=
  upsert indexID d st

/-- The batch built by `AddDocumentsInternal` before committing: for
each document in order, read its primary-key value; a missing or nil
value aborts with the code's error (and the engine batch is never
committed); otherwise the document is recorded under the `%v` string
coercion of the value. -/
def buildAddBatch (primaryKey : String) : List Doc → Except String (List (String × Doc))
  | [] => Except.ok []
  | doc :: rest =>
    match lookupKey primaryKey doc with
    | some v =>
      if v = Value.vnull then
        Except.error ("document missing primary key " ++ primaryKey)
      else
        (buildAddBatch primaryKey rest).map (fun ps => (goFormatValue v, doc) :: ps)
    | none => Except.error ("document missing primary key " ++ primaryKey)

/-- `IndexStore.AddDocumentsInternal`: error when the index is absent;
otherwise build the batch of upserts keyed by the coerced primary-key
value and commit it in one step.  Any error leaves the store
unchanged (the Go method returns before `index.Batch`). -/
def AddDocumentsInternal (st : StoreState) (indexID : String)
    (documents : List Doc) : StoreState × Except String Unit :=
  match getIndexData st indexID with
  | none => (st, Except.error ("index " ++ indexID ++ " not found"))
  | some data =>
    match buildAddBatch data.config.primaryKey documents with
    | Except.error e => (st, Except.error e)
    | Except.ok ps =>
      (setIndexData st indexID { data with engine := applyBatch data.engine ps },
        Except.ok ())

/-- `IndexStore.DeleteDocumentInternal`: error when the index is
absent; otherwise delete the single engine-level id (a missing
document is not an error: the engine delete of an absent key is a
no-op). -/
def DeleteDocumentInternal (st : StoreState) (indexID documentID : String) :
    StoreState × Except String Unit :=
  match getIndexData st indexID with
  | none => (st, Except.error ("index " ++ indexID ++ " not found"))
  | some data =>
    (setIndexData st indexID { data with engine := eraseKey documentID data.engine },
      Except.ok ())

/-- The documents of an engine matching a query predicate, in store
order (the result set of a query-string search over a static index;
the abstract predicate `matches` stands for the engine's evaluation of
the query string, see the file header). -/
def engineMatches (e : Engine) (pred : Doc → Bool) : Engine :=
  e.filter (fun p => pred p.2)

/-- One page of search hits: `searchRequest.From = offset`,
`searchRequest.Size = size` over the match list of a static index. -/
def searchPage (m : Engine) (offset size : Nat) : Engine :=
  (m.drop offset).take size

/-- The pagination loop of `DeleteDocumentsInternal`'s filter branch:
pages of `pageSize` over the (static) match list, collecting the hit
ids; stop on an empty page or a short page.  The Go loop carries no
fuel; `fuel ≥ m.length + 1` is shown sufficient below and the callers
pass it. -/
def collectPages (m : Engine) (pageSize : Nat) : Nat → Nat → List String
  | 0, _ => []
  | fuel + 1, offset =>
    let page := searchPage m offset pageSize
    if page.length = 0 then
      []
    else if page.length < pageSize then
      page.map (fun p => p.1)
    else
      page.map (fun p => p.1) ++ collectPages m pageSize fuel (offset + pageSize)

/-- `IndexStore.DeleteDocumentsInternal`: error when the index is
absent; when `ids` is non-empty delete exactly those ids; otherwise
when `filter` is non-empty paginate the query-string results in pages
of 10000 and delete every hit; otherwise error with the code's
message, leaving the store unchanged.  `qsem filter` is the engine's
evaluation of the query string (file header). -/
def DeleteDocumentsInternal (qsem : String → Doc → Bool) (st : StoreState)
    (indexID filter : String) (ids : List String) :
    StoreState × Except String Unit :=
  match getIndexData st indexID with
  | none => (st, Except.error ("index " ++ indexID ++ " not found"))
  | some data =>
    if ids.length > 0 then
      (setIndexData st indexID
        { data with engine := ids.foldl (fun e i => eraseKey i e) data.engine },
        Except.ok ())
    else if filter ≠ "" then
      let m := engineMatches data.engine (qsem filter)
      let hitIds := collectPages m 10000 (m.length + 1) 0
      (setIndexData st indexID
        { data with engine := hitIds.foldl (fun e i => eraseKey i e) data.engine },
        Except.ok ())
    else
      (st, Except.error "must provide ids or filter parameter to delete documents")

/-- Shallow merge of the update map over the existing document's
fields: iterate the updates, assigning each key into the existing map
(`existingData[key] = value`). -/
def mergeDoc (existing : Doc) (updates : Doc) : Doc :=
  applyBatch existing updates

/-- `IndexStore.UpdateDocumentInternal`: error when the index is
absent; fetch the existing document by engine-level id (the
`DocIDQuery` search over the engine store); error `document not found`
when absent; otherwise shallow-merge the updates over its fields and
re-index the merged document under the same id. -/
def UpdateDocumentInternal (st : StoreState) (indexID documentID : String)
    (updates : Doc) : StoreState × Except String Unit :=
  match getIndexData st indexID with
  | none => (st, Except.error ("index " ++ indexID ++ " not found"))
  | some data =>
    match lookupKey documentID data.engine with
    | none => (st, Except.error "document not found")
    | some existing =>
      (setIndexData st indexID
        { data with engine := upsert documentID (mergeDoc existing updates) data.engine },
        Except.ok ())

/-- `IndexStore.CreateIndexInternal`: error when the id exists;
otherwise register the config with a fresh empty engine. -/
def CreateIndexInternal (st : StoreState) (config : IndexConfig) :
    StoreState × Except String Unit :=
  if containsKey config.id st then
    (st, Except.error ("index " ++ config.id ++ " already exists"))
  else
    (st ++ [(config.id, { config := config, engine := [] })], Except.ok ())

/-- `IndexStore.DeleteIndexInternal`: error when the id is absent;
otherwise remove the index. -/
def DeleteIndexInternal (st : StoreState) (id : String) :
    StoreState × Except String Unit :=
  if containsKey id st then
    (eraseKey id st, Except.ok ())
  else
    (st, Except.error ("index " ++ id ++ " not found"))

/-- `IndexStore.UpdateIndexInternal`: error when the id is absent;
otherwise replace the config (the id itself is forced to stay
unchanged by the code). -/
def UpdateIndexInternal (st : StoreState) (id : String) (config : IndexConfig) :
    StoreState × Except String Unit :=
  match getIndexData st id with
  | none => (st, Except.error ("index " ++ id ++ " not found"))
  | some data =>
    (setIndexData st id { data with config := { config with id := id } }, Except.ok ())

end Bright

namespace Bright

/-! ## The command state machine (`raft/command.go`, `raft.FSM.Apply`) -/

/-- `raft.CreateIndexPayload`. -/
structure CreateIndexPayload where
  id : String
  primaryKey : String
deriving DecidableEq

/-- `raft.AddDocumentsPayload`. -/
structure AddDocumentsPayload where
  indexID : String
  documents : List Doc
deriving DecidableEq

/-- `raft.DeleteDocumentPayload`. -/
structure DeleteDocumentPayload where
  indexID : String
  documentID : String
deriving DecidableEq

/-- `raft.DeleteDocumentsPayload`. -/
structure DeleteDocumentsPayload where
  indexID : String
  filter : String
  ids : List String
deriving DecidableEq

/-- `raft.UpdateDocumentPayload`. -/
structure UpdateDocumentPayload where
  indexID : String
  documentID : String
  updates : Doc
deriving DecidableEq

/-- `raft.AutoCreateAndAddDocumentsPayload`. -/
structure AutoCreateAndAddDocumentsPayload where
  indexID : String
  primaryKey : String
  documents : List Doc
deriving DecidableEq

/-- The tagged command variants replicated through the log
(`raft.CommandType` with the payload of each variant; the byte-level
JSON codec of `raft.Command` is outside the modelled claims — the FSM
is modelled on decoded commands). -/
inductive Command where
  | createIndex : CreateIndexPayload → Command
  | deleteIndex : String → Command
  | updateIndex : CreateIndexPayload → Command
  | addDocuments : AddDocumentsPayload → Command
  | deleteDocument : DeleteDocumentPayload → Command
  | deleteDocuments : DeleteDocumentsPayload → Command
  | updateDocument : UpdateDocumentPayload → Command
  | autoCreateAndAddDocuments : AutoCreateAndAddDocumentsPayload → Command
deriving DecidableEq

/-- The string tag of each command variant (`raft/command.go`
constants). -/
def Command.tag : Command → String
  | Command.createIndex _ => "create_index"
  | Command.deleteIndex _ => "delete_index"
  | Command.updateIndex _ => "update_index"
  | Command.addDocuments _ => "add_documents"
  | Command.deleteDocument _ => "delete_document"
  | Command.deleteDocuments _ => "delete_documents"
  | Command.updateDocument _ => "update_document"
  | Command.autoCreateAndAddDocuments _ => "auto_create_and_add_documents"

/-- `raft.FSM.Apply`: the switch over the command tag dispatching to
the store's internal operations.  The switch in `raft/raft.go` has
cases for the seven basic variants only; a decoded
`auto_create_and_add_documents` entry falls through to the `default`
branch, which returns the unknown-command error and performs no store
operation. -/
def fsmApply (qsem : String → Doc → Bool) (cmd : Command) (st : StoreState) :
    StoreState × Except String Unit :=
  match cmd with
  | Command.createIndex pl =>
    CreateIndexInternal st { id := pl.id, primaryKey := pl.primaryKey }
  | Command.deleteIndex id => DeleteIndexInternal st id
  | Command.updateIndex pl =>
    UpdateIndexInternal st pl.id { id := pl.id, primaryKey := pl.primaryKey }
  | Command.addDocuments pl => AddDocumentsInternal st pl.indexID pl.documents
  | Command.deleteDocument pl => DeleteDocumentInternal st pl.indexID pl.documentID
  | Command.deleteDocuments pl =>
    DeleteDocumentsInternal qsem st pl.indexID pl.filter pl.ids
  | Command.updateDocument pl =>
    UpdateDocumentInternal st pl.indexID pl.documentID pl.updates
  | Command.autoCreateAndAddDocuments _ =>
    (st, Except.error ("unknown command type: " ++ cmd.tag))

/-- Modelled from the spec (the committed behaviour of
`AUTO_CREATE_AND_ADD_DOCUMENTS` that `raft.FSM.Apply` is supposed to
implement but does not dispatch): if the target index is absent,
create it with the entry's primary key; then add the documents exactly
as `ADD_DOCUMENTS` would, all within the one entry. -/
def specAutoCreateAndAdd (pl : AutoCreateAndAddDocumentsPayload)
    (st : StoreState) : StoreState × Except String Unit :=
  let st1 :=
    if containsKey pl.indexID st then st
    else (CreateIndexInternal st { id := pl.indexID, primaryKey := pl.primaryKey }).1
  AddDocumentsInternal st1 pl.indexID pl.documents

end Bright

namespace Bright

/-! ## The search handler (`handlers/search.go`) -/

/-- The effective search parameters after the handler has merged the
request body over the query parameters (body fields override only when
positive / non-empty, so the claims quantify over the merged values). -/
structure SearchParams where
  q : String
  offset : Nat
  limit : Nat
  page : Nat
  sort : List String
  attributesToRetrieve : List String
  attributesToExclude : List String
deriving DecidableEq

/-- The handler's response, through the `errors` helpers: an error
response carries the HTTP status and the typed error code; a success
carries the processed hits, `totalHits` and `totalPages`. -/
inductive SearchOutcome where
  | err : Nat → String → SearchOutcome
  | ok : List Doc → Nat → Option Int → SearchOutcome
deriving DecidableEq

/-- `totalPages := int(math.Ceil(float64(total) / float64(limit)))`.
For `limit > 0` (and totals within the float64-exact range all
realistic indexes are in) the float computation is the exact ceiling
division, modelled as such.  For `limit = 0` the float division yields
`+Inf` (or `NaN` when `total = 0`) and the Go specification leaves the
value of converting it to `int` implementation-dependent, so the model
returns `none` (no defined value). -/
def goTotalPages (total : Nat) (limit : Nat) : Option Int :=
  if limit = 0 then none
  else some (((total : Int) + (limit : Int) - 1) / (limit : Int))

/-- Ceiling division as the spec's `ceil(totalHits/limit)`, written
from the spec's words for comparison with `goTotalPages` (with the
usual `Nat` convention that division by zero is zero). -/
def specCeilDiv (total limit : Nat) : Nat :=
  (total + limit - 1) / limit

/-- The per-hit post-processing block of the search handler: copy the
hit's fields, add the engine-level document id under `"id"` when the
fields carry no `"id"` attribute, then remove every attribute listed
in `attributesToExclude`. -/
def processHit (fields : Doc) (hitID : String) (excl : List String) : Doc :=
  let doc := fields
  let doc := if containsKey "id" doc then doc else upsert "id" (Value.vstr hitID) doc
  excl.foldl (fun d a => eraseKey a d) doc

/-- The fields bleve returns for a hit: exactly the requested fields
(`searchRequest.Fields`): the listed attributes when
`attributesToRetrieve` is non-empty, all stored fields otherwise. -/
def hitFields (stored : Doc) (retrieve : List String) : Doc :=
  if retrieve.length > 0 then stored.filter (fun p => p.1 ∈ retrieve) else stored

/-- `handlers.Search` after parameter merging, in the order of the
source: the conflicting-parameters validation, the page-to-offset
conversion, the index lookup, the query-string (or match-all) search
with `From`/`Size`, the per-hit post-processing, and the `totalPages`
computation.  Sorting only permutes the engine's result order, which
is abstract here (file header). -/
def searchHandler (qsem : String → Doc → Bool) (st : StoreState)
    (indexID : String) (params : SearchParams) : SearchOutcome :=
  if params.attributesToRetrieve.length > 0 ∧ params.attributesToExclude.length > 0 then
    SearchOutcome.err 400 "CONFLICTING_PARAMETERS"
  else
    let offset := if params.page > 1 then (params.page - 1) * params.limit else params.offset
    match getIndexData st indexID with
    | none => SearchOutcome.err 404 "INDEX_NOT_FOUND"
    | some data =>
      let pred := if params.q = "" then fun _ => true else qsem params.q
      let m := engineMatches data.engine pred
      let page := searchPage m offset params.limit
      let hits := page.map (fun p =>
        processHit (hitFields p.2 params.attributesToRetrieve) p.1
          params.attributesToExclude)
      SearchOutcome.ok hits m.length (goTotalPages m.length params.limit)

end Bright

namespace Bright

/-! ## The health endpoint (`handlers/health.go`) -/

/-- The response of `handlers.Health`: HTTP status and the reported
`status` string.  `elapsedNs` is `time.Since(startTime)` in
nanoseconds at the request (wall clock, passed in as an explicit
input); the grace period is `60 * time.Second`. -/
def healthHandler (raftEnabled : Bool) (leaderAddr : String) (elapsedNs : Nat) :
    Nat × String :=
  let grace : Nat := 60 * 1000000000
  if raftEnabled ∧ leaderAddr = "" ∧ elapsedNs > grace then
    (503, "degraded")
  else
    (200, "ok")

end Bright

namespace Bright

/-! ## The PostgreSQL ingress poller (`ingresses/postgres`, `Poller`)

The source table is modelled as the list of its rows in primary-key
order (the `ORDER BY <primary_key>` of every full-sync query), each
row carried as its string primary-key value paired with the mapped
document.  The row mapper is modelled as the identity on already
mapped rows; per-row mapper failures are outside the modelled claim.
Wall-clock reads (`time.Now()`) are passed in as the explicit `now`.
-/

/-- A source-table row: its primary-key value (as the string the
mapper extracts) and the mapped document. -/
abbrev Row : Type := String × Doc

/-- The in-memory cursor state of `Poller`. -/
structure PollerState where
  lastSyncAt : Nat
  lastID : String
  fullSyncComplete : Bool
deriving DecidableEq

/-- The rows the full-sync query selects for a cursor value: all rows
when the cursor is empty (the no-`WHERE` branch of `fetchBatch`),
otherwise the rows with primary key strictly greater than the cursor
(`WHERE <primary_key> > $1`), in primary-key order. -/
def rowsAfter (table : List Row) (cursor : String) : List Row :=
  if cursor = "" then table else table.filter (fun r => cursor < r.1)

/-- `Poller.fetchBatch`: the selected rows limited to `batchSize`, and
the primary-key value of the last returned row (the `lastID` the loop
advances to; the empty string when the batch is empty). -/
def fetchBatch (table : List Row) (cursor : String) (batchSize : Nat) :
    List Row × String :=
  let batch := (rowsAfter table cursor).take batchSize
  (batch, (batch.getLast?.map (fun r => r.1)).getD "")

/-- The loop body of `Poller.fullSync`: fetch a batch after the
current cursor; stop on an empty batch; otherwise deliver the batch
(`onDocuments`, collected in order in the returned list), advance
`lastID`, and stop after a short batch.  The Go loop carries no fuel;
`fuel ≥ table.length + 1` is shown sufficient below. -/
def fullSyncLoop (table : List Row) (batchSize : Nat) :
    Nat → PollerState → List (List Row) → Option (PollerState × List (List Row))
  | 0, _, _ => none
  | fuel + 1, st, delivered =>
    let fetched := fetchBatch table st.lastID batchSize
    if fetched.1.length = 0 then
      some (st, delivered)
    else
      let st1 := { st with lastID := fetched.2 }
      let delivered1 := delivered ++ [fetched.1]
      if fetched.1.length < batchSize then
        some (st1, delivered1)
      else
        fullSyncLoop table batchSize fuel st1 delivered1

/-- `Poller.fullSync`: run the batch loop, then set
`fullSyncComplete = true`, `lastSyncAt = now` and clear `lastID`.
Returns the final cursor state and the delivered batches, or `none`
when the fuel bound is hit (never, for sufficient fuel). -/
def fullSync (table : List Row) (batchSize fuel : Nat) (now : Nat)
    (st : PollerState) : Option (PollerState × List (List Row)) :=
  (fullSyncLoop table batchSize fuel st []).map
    (fun r => ({ lastSyncAt := now, lastID := "", fullSyncComplete := true }, r.2))

/-- Which sync a poll cycle performs (`Poller.Poll`): a full sync
while `fullSyncComplete` is false, an incremental sync afterwards. -/
inductive PollKind where
  | full : PollKind
  | incremental : PollKind
deriving DecidableEq

/-- The dispatch of `Poller.Poll`. -/
def pollKind (st : PollerState) : PollKind :=
  if st.fullSyncComplete then PollKind.incremental else PollKind.full

end Bright

namespace Bright

/-! ## Association-list lemmas -/

theorem lookupKey_append (k : String) (l₁ l₂ : List (String × α)) :
    lookupKey k (l₁ ++ l₂) =
      match lookupKey k l₁ with
      | some v => some v
      | none => lookupKey k l₂ := by
  induction l₁ with
  | nil => simp [lookupKey]
  | cons p l ih =>
    by_cases h : p.1 = k <;> simp [lookupKey, h, ih]

theorem containsKey_eq_isSome_lookupKey (k : String) (e : List (String × α)) :
    containsKey k e = (lookupKey k e).isSome := by
  induction e with
  | nil => simp [containsKey, lookupKey]
  | cons p l ih =>
    by_cases h : p.1 = k <;> simp [containsKey, lookupKey, h] <;>
      simpa [containsKey] using ih

theorem lookupKey_eq_none_of_not_mem (k : String) (e : List (String × α))
    (h : ¬ k ∈ e.map Prod.fst) : lookupKey k e = none := by
  induction e with
  | nil => rfl
  | cons p l ih =>
    simp only [List.map_cons, List.mem_cons] at h
    push_neg at h
    simp only [lookupKey]
    rw [if_neg (fun hh => h.1 hh.symm)]
    exact ih h.2

theorem mem_keys_of_lookupKey_isSome (k : String) (e : List (String × α))
    (h : (lookupKey k e).isSome) : k ∈ e.map Prod.fst := by
  by_contra hmem
  rw [lookupKey_eq_none_of_not_mem k e hmem] at h
  simp at h

theorem lookupKey_replace (k k' : String) (v : α) (e : List (String × α)) :
    lookupKey k' (e.map (fun p => if p.1 = k then (k, v) else p)) =
      if k' = k then (if containsKey k e then some v else none)
      else lookupKey k' e := by
  induction e with
  | nil => by_cases hk : k' = k <;> simp [lookupKey, containsKey, hk]
  | cons p l ih =>
    by_cases hp : p.1 = k
    · by_cases hk : k' = k
      · simp [lookupKey, containsKey, hp, hk]
      · simp only [List.map_cons, hp, if_true, lookupKey, containsKey]
        rw [if_neg (fun h => hk h.symm), ih]
        simp only [hk, if_false]
        rw [if_neg (fun h : k = k' => hk h.symm)]
    · by_cases hpk : p.1 = k'
      · have hk : ¬ k' = k := fun h => hp (h ▸ hpk)
        simp [lookupKey, hp, hpk, hk]
      · simp only [List.map_cons, hp, if_false, lookupKey, hpk]
        rw [ih]
        have hdp : (decide (p.1 = k)) = false := by simp [hp]
        by_cases hk : k' = k
        · simp only [hk, if_true, containsKey, List.any_cons, hdp, Bool.false_or]
        · simp [hk]

theorem lookupKey_upsert (k k' : String) (v : α) (e : List (String × α)) :
    lookupKey k' (upsert k v e) =
      if k' = k then some v else lookupKey k' e := by
  by_cases hc : containsKey k e
  · have hany : e.any (fun p => p.1 = k) = true := hc
    rw [upsert, if_pos hany, lookupKey_replace]
    simp [hc]
  · have hany : ¬ e.any (fun p => p.1 = k) = true := hc
    rw [upsert, if_neg hany, lookupKey_append]
    by_cases hk : k' = k
    · subst hk
      have hnone : lookupKey k' e = none := by
        cases h : lookupKey k' e with
        | none => rfl
        | some v =>
          exact absurd (by rw [containsKey_eq_isSome_lookupKey, h]; rfl) hc
      simp [hnone, lookupKey]
    · cases h : lookupKey k' e with
      | some v => simp [h, hk]
      | none =>
        simp [h, lookupKey, hk]
        intro hh
        exact absurd hh.symm hk

theorem containsKey_iff_mem (k : String) (e : List (String × α)) :
    containsKey k e = true ↔ k ∈ e.map Prod.fst := by
  simp only [containsKey, List.any_eq_true, List.mem_map, decide_eq_true_eq]

theorem lookupKey_eraseKey (k k' : String) (e : List (String × α)) :
    lookupKey k' (eraseKey k e) =
      if k' = k then none else lookupKey k' e := by
  induction e with
  | nil => simp [eraseKey, lookupKey]
  | cons p l ih =>
    simp only [eraseKey, List.filter_cons] at ih ⊢
    by_cases hp : p.1 = k
    · have hcond : (decide (p.1 ≠ k)) = false := by simp [hp]
      simp only [hcond, Bool.false_eq_true, if_false]
      rw [ih]
      by_cases hk : k' = k
      · simp [hk]
      · have hpk : ¬ p.1 = k' := fun hh => hk (hh ▸ hp)
        simp [lookupKey, hk, hpk]
    · have hcond : (decide (p.1 ≠ k)) = true := by simp [hp]
      simp only [hcond, if_true, lookupKey]
      by_cases hpk : p.1 = k'
      · have hk : ¬ k' = k := fun hh => hp (by rw [hpk, hh])
        simp [hpk, hk]
      · simp only [hpk, if_false]
        rw [ih]

theorem lookupKey_eraseFold (ids : List String) (k' : String)
    (e : List (String × α)) :
    lookupKey k' (ids.foldl (fun acc i => eraseKey i acc) e) =
      if k' ∈ ids then none else lookupKey k' e := by
  induction ids generalizing e with
  | nil => simp
  | cons i ids ih =>
    simp only [List.foldl_cons, ih, lookupKey_eraseKey, List.mem_cons]
    by_cases h1 : k' ∈ ids
    · simp [h1]
    · by_cases h2 : k' = i <;> simp [h1, h2]

theorem mapFst_replace (k : String) (v : α) (e : List (String × α)) :
    (e.map (fun p => if p.1 = k then (k, v) else p)).map Prod.fst =
      e.map Prod.fst := by
  rw [List.map_map]
  apply List.map_congr_left
  intro p _
  by_cases hp : p.1 = k <;> simp [hp]

theorem mapFst_upsert_of_contains (k : String) (v : α) (e : List (String × α))
    (h : containsKey k e = true) :
    (upsert k v e).map Prod.fst = e.map Prod.fst := by
  have hany : e.any (fun p => p.1 = k) = true := h
  rw [upsert, if_pos hany, mapFst_replace]

theorem containsKey_upsert_self (k : String) (v : α) (e : List (String × α)) :
    containsKey k (upsert k v e) = true := by
  rw [containsKey_eq_isSome_lookupKey, lookupKey_upsert]
  simp

theorem containsKey_upsert_of_contains (k k' : String) (v : α)
    (e : List (String × α)) (h : containsKey k' e = true) :
    containsKey k' (upsert k v e) = true := by
  rw [containsKey_eq_isSome_lookupKey, lookupKey_upsert]
  rw [containsKey_eq_isSome_lookupKey] at h
  by_cases hk : k' = k <;> simp [hk, h]

theorem nodupKeys_upsert (k : String) (v : α) (e : List (String × α))
    (h : (e.map Prod.fst).Nodup) : ((upsert k v e).map Prod.fst).Nodup := by
  by_cases hc : containsKey k e
  · rw [mapFst_upsert_of_contains k v e hc]
    exact h
  · have hany : ¬ e.any (fun p => p.1 = k) = true := hc
    rw [upsert, if_neg hany]
    simp only [List.map_append, List.map_cons, List.map_nil]
    rw [List.nodup_append]
    refine ⟨h, List.nodup_singleton k, ?_⟩
    intro a ha hb
    simp only [List.mem_singleton] at hb
    subst hb
    exact hc ((containsKey_iff_mem a e).mpr ha)

theorem lookupKey_isSome_of_mem (k : String) (e : List (String × α))
    (h : k ∈ e.map Prod.fst) : (lookupKey k e).isSome := by
  induction e with
  | nil => simp at h
  | cons p l ih =>
    by_cases hp : p.1 = k
    · simp [lookupKey, hp]
    · simp only [List.map_cons, List.mem_cons] at h
      rcases h with h | h
    
      · exact absurd h.symm hp
      · simp only [lookupKey, hp, if_false]
        exact ih h

theorem lookupKey_applyBatch (k : String) (e ps : List (String × α)) :
    lookupKey k (applyBatch e ps) =
      match lookupKey k ps.reverse with
      | some v => some v
      | none => lookupKey k e := by
  induction ps generalizing e with
  | nil => simp [applyBatch, lookupKey]
  | cons p ps ih =>
    simp only [applyBatch, List.foldl_cons] at ih ⊢
    rw [ih, List.reverse_cons, lookupKey_append]
    cases h : lookupKey k ps.reverse with
    | some v => rfl
    | none =>
      rw [lookupKey_upsert]
      by_cases hp : k = p.1
      · simp [lookupKey, hp]
      · have hp2 : ¬ p.1 = k := fun hh => hp hh.symm
        simp [lookupKey, hp, hp2]

theorem containsKey_applyBatch_of_mem (k : String) (e ps : List (String × α))
    (h : k ∈ ps.map Prod.fst) : containsKey k (applyBatch e ps) = true := by
  rw [containsKey_eq_isSome_lookupKey, lookupKey_applyBatch]
  have : (lookupKey k ps.reverse).isSome :=
    lookupKey_isSome_of_mem k ps.reverse (by simpa using h)
  cases hh : lookupKey k ps.reverse with
  | some v => simp
  | none => rw [hh] at this; simp at this

theorem mapFst_applyBatch_of_contains (e ps : List (String × α))
    (h : ∀ k ∈ ps.map Prod.fst, containsKey k e = true) :
    (applyBatch e ps).map Prod.fst = e.map Prod.fst := by
  induction ps generalizing e with
  | nil => rfl
  | cons p ps ih =>
    simp only [applyBatch, List.foldl_cons] at ih ⊢
    rw [ih]
    · exact mapFst_upsert_of_contains p.1 p.2 e (h p.1 (by simp))
    · intro k hk
      exact containsKey_upsert_of_contains p.1 k p.2 e (h k (by simp [hk]))

theorem nodupKeys_applyBatch (e ps : List (String × α))
    (h : (e.map Prod.fst).Nodup) : ((applyBatch e ps).map Prod.fst).Nodup := by
  induction ps generalizing e with
  | nil => exact h
  | cons p ps ih =>
    simp only [applyBatch, List.foldl_cons] at ih ⊢
    exact ih (upsert p.1 p.2 e) (nodupKeys_upsert p.1 p.2 e h)

theorem assoc_ext (e f : List (String × α))
    (hkeys : e.map Prod.fst = f.map Prod.fst)
    (hnd : (e.map Prod.fst).Nodup)
    (hlook : ∀ k, lookupKey k e = lookupKey k f) : e = f := by
  induction e generalizing f with
  | nil =>
    have : f.map Prod.fst = [] := hkeys.symm
    simpa using (List.map_eq_nil_iff.mp this)
  | cons p e ih =>
    cases f with
    | nil => simp at hkeys
    | cons q f =>
      simp only [List.map_cons, List.cons.injEq] at hkeys
      have hq1 : p.1 = q.1 := hkeys.1
      have hval : p.2 = q.2 := by
        have h0 := hlook p.1
        simp [lookupKey, hq1.symm] at h0
        exact h0
      have hq : p = q := Prod.ext_iff.mpr ⟨hq1, hval⟩
      subst hq
      simp only [List.map_cons, List.nodup_cons] at hnd
      have htail : ∀ k, lookupKey k e = lookupKey k f := by
        intro k
        by_cases hk : p.1 = k
        · subst hk
          rw [lookupKey_eq_none_of_not_mem p.1 e hnd.1,
            lookupKey_eq_none_of_not_mem p.1 f (hkeys.2 ▸ hnd.1)]
        · have h0 := hlook k
          simpa [lookupKey, hk] using h0
      rw [ih f hkeys.2 hnd.2 htail]

theorem applyBatch_idem (e ps : List (String × α))
    (h : (e.map Prod.fst).Nodup) :
    applyBatch (applyBatch e ps) ps = applyBatch e ps := by
  have hall : ∀ k ∈ ps.map Prod.fst, containsKey k (applyBatch e ps) = true :=
    fun k hk => containsKey_applyBatch_of_mem k e ps hk
  apply assoc_ext
  · exact mapFst_applyBatch_of_contains (applyBatch e ps) ps hall
  · rw [mapFst_applyBatch_of_contains (applyBatch e ps) ps hall]
    exact nodupKeys_applyBatch e ps h
  · intro k
    rw [lookupKey_applyBatch, lookupKey_applyBatch]
    cases hh : lookupKey k ps.reverse <;> simp

theorem collectPages_eq (m : Engine) (pageSize : Nat) (hps : 1 ≤ pageSize) :
    ∀ fuel offset, (m.length - offset) + 1 ≤ fuel →
      collectPages m pageSize fuel offset = (m.drop offset).map Prod.fst := by
  intro fuel
  induction fuel with
  | zero => intro offset h; omega
  | succ fuel ih =>
    intro offset hfuel
    simp only [collectPages, searchPage]
    by_cases h0 : ((m.drop offset).take pageSize).length = 0
    · simp only [h0, if_true]
      have hlen : (m.drop offset).length = 0 := by
        rw [List.length_take] at h0
        omega
      rw [List.eq_nil_of_length_eq_zero hlen]
      rfl
    · simp only [h0, if_false]
      by_cases h1 : ((m.drop offset).take pageSize).length < pageSize
      · simp only [h1, if_true]
        have : (m.drop offset).take pageSize = m.drop offset := by
          apply List.take_of_length_le
          rw [List.length_take] at h1
          omega
        rw [this]
      · simp only [h1, if_false]
        have hfull : pageSize ≤ (m.drop offset).length := by
          rw [List.length_take] at h1
          omega
        have hrec : (m.length - (offset + pageSize)) + 1 ≤ fuel := by
          rw [List.length_drop] at hfull
          omega
        rw [ih (offset + pageSize) hrec]
        rw [← List.map_append]
        congr 1
        rw [← List.drop_drop]
        exact List.take_append_drop pageSize (m.drop offset)

theorem mem_engineMatches_keys (e : Engine) (pred : Doc → Bool) (k : String)
    (d : Doc) (hnd : (e.map Prod.fst).Nodup) (h : lookupKey k e = some d) :
    (k ∈ (engineMatches e pred).map Prod.fst) ↔ pred d = true := by
  induction e with
  | nil => simp [lookupKey] at h
  | cons p l ih =>
    simp only [List.map_cons, List.nodup_cons] at hnd
    by_cases hp : p.1 = k
    · have hd : p.2 = d := by
        simp only [lookupKey, hp, if_pos] at h
        exact Option.some.inj h
      have hknotl : ¬ k ∈ (engineMatches l pred).map Prod.fst := by
        intro hmem
        apply hnd.1
        rw [← hp] at hmem
        rcases List.mem_map.mp hmem with ⟨q, hq, hqk⟩
        have hql : q ∈ l := List.mem_of_mem_filter hq
        rw [← hqk]
        exact List.mem_map_of_mem Prod.fst hql
      by_cases hpred : pred p.2
      · have : p ∈ engineMatches (p :: l) pred ∧
            engineMatches (p :: l) pred = p :: engineMatches l pred := by
          constructor
          · simp [engineMatches, List.filter_cons, hpred]
          · simp [engineMatches, List.filter_cons, hpred]
        rw [this.2]
        simp [hp, hd ▸ hpred]
      · have : engineMatches (p :: l) pred = engineMatches l pred := by
          simp [engineMatches, List.filter_cons, hpred]
        rw [this]
        simp [hknotl]
        rw [← hd]
        simpa using hpred
    · have htail : lookupKey k l = some d := by
        simpa [lookupKey, hp] using h
      by_cases hpred : pred p.2
      · have : engineMatches (p :: l) pred = p :: engineMatches l pred := by
          simp [engineMatches, List.filter_cons, hpred]
        rw [this]
        simp only [List.map_cons, List.mem_cons]
        rw [← ih hnd.2 htail]
        constructor
        · rintro (hh | hh)
          · exact absurd hh.symm hp
          · exact hh
        · intro hh
          exact Or.inr hh
      · have : engineMatches (p :: l) pred = engineMatches l pred := by
          simp [engineMatches, List.filter_cons, hpred]
        rw [this]
        exact ih hnd.2 htail

/-- The engine-level document stored under id `k` in index `idx` of a
store state (what a reader observes). -/
def engineLookup (st : StoreState) (idx k : String) : Option Doc :=
  match getIndexData st idx with
  | none => none
  | some d => lookupKey k d.engine

theorem engineLookup_setIndexData (st : StoreState) (idx k : String)
    (d : IndexData) : engineLookup (setIndexData st idx d) idx k = lookupKey k d.engine := by
  unfold engineLookup setIndexData getIndexData
  rw [lookupKey_upsert]
  simp

theorem mem_insertCandidate (a c : String) (cs : List String) :
    a ∈ insertCandidate c cs ↔ (a ∈ cs ∨ a = c) := by
  unfold insertCandidate
  by_cases h : c ∈ cs
  · simp only [h, if_true]
    constructor
    · exact Or.inl
    · rintro (ha | rfl)
      · exact ha
      · exact h
  · simp [h, List.mem_append]

theorem mem_attrFold (doc : Doc) : ∀ (cs : List String) (a : String),
    (a ∈ doc.foldl
      (fun cs p => if attrEndsInId p.1 then insertCandidate p.1 cs else cs) cs) ↔
      (a ∈ cs ∨ (attrEndsInId a = true ∧ a ∈ doc.map Prod.fst)) := by
  induction doc with
  | nil => simp
  | cons p l ih =>
    intro cs a
    simp only [List.foldl_cons]
    by_cases hp : attrEndsInId p.1
    · rw [if_pos hp, ih, mem_insertCandidate]
      constructor
      · rintro ((h | rfl) | ⟨he, hm⟩)
        · exact Or.inl h
        · exact Or.inr ⟨hp, by simp⟩
        · exact Or.inr ⟨he, by simp [hm]⟩
      · rintro (h | ⟨he, hm⟩)
        · exact Or.inl (Or.inl h)
        · simp only [List.map_cons, List.mem_cons] at hm
          rcases hm with rfl | hm
          · exact Or.inl (Or.inr rfl)
          · exact Or.inr ⟨he, hm⟩
    · rw [if_neg hp, ih]
      constructor
      · rintro (h | ⟨he, hm⟩)
        · exact Or.inl h
        · exact Or.inr ⟨he, by simp [hm]⟩
      · rintro (h | ⟨he, hm⟩)
        · exact Or.inl h
        · simp only [List.map_cons, List.mem_cons] at hm
          rcases hm with rfl | hm
          · exact absurd he hp
          · exact Or.inr ⟨he, hm⟩

theorem mem_collectFold (documents : List Doc) : ∀ (cs : List String) (a : String),
    (a ∈ documents.foldl
      (fun cs doc => doc.foldl
        (fun cs p => if attrEndsInId p.1 then insertCandidate p.1 cs else cs) cs)
      cs) ↔
      (a ∈ cs ∨ (attrEndsInId a = true ∧ ∃ d ∈ documents, a ∈ d.map Prod.fst)) := by
  induction documents with
  | nil => simp
  | cons d rest ih =>
    intro cs a
    simp only [List.foldl_cons]
    rw [ih, mem_attrFold]
    constructor
    · rintro ((h | ⟨he, hm⟩) | ⟨he, dd, hd, hm⟩)
      · exact Or.inl h
      · exact Or.inr ⟨he, d, by simp, hm⟩
      · exact Or.inr ⟨he, dd, by simp [hd], hm⟩
    · rintro (h | ⟨he, dd, hd, hm⟩)
      · exact Or.inl (Or.inl h)
      · simp only [List.mem_cons] at hd
        rcases hd with rfl | hd
        · exact Or.inl (Or.inr ⟨he, hm⟩)
        · exact Or.inr ⟨he, dd, hd, hm⟩

theorem mem_collectCandidates (documents : List Doc) (a : String) :
    a ∈ collectCandidates documents ↔
      (attrEndsInId a = true ∧ ∃ d ∈ documents, a ∈ d.map Prod.fst) := by
  unfold collectCandidates
  rw [mem_collectFold]
  simp

theorem replace_of_not_contains (k : String) (v : α) (e : List (String × α))
    (h : ¬ containsKey k e = true) :
    e.map (fun p => if p.1 = k then (k, v) else p) = e := by
  induction e with
  | nil => rfl
  | cons p t ih =>
    simp only [containsKey, List.any_cons, Bool.or_eq_true, not_or] at h
    have hpk : ¬ p.1 = k := by simpa using h.1
    simp only [List.map_cons, hpk, if_false]
    rw [ih h.2]

theorem replace_replace (k : String) (v : α) (e : List (String × α)) :
    (e.map (fun p => if p.1 = k then (k, v) else p)).map
        (fun p => if p.1 = k then (k, v) else p) =
      e.map (fun p => if p.1 = k then (k, v) else p) := by
  rw [List.map_map]
  apply List.map_congr_left
  intro p _
  by_cases hp : p.1 = k <;> simp [hp]

theorem upsert_upsert_same (k : String) (v : α) (e : List (String × α)) :
    upsert k v (upsert k v e) = upsert k v e := by
  by_cases hc : containsKey k e
  · have hany : e.any (fun p => p.1 = k) = true := hc
    have hc2 : containsKey k (upsert k v e) = true := containsKey_upsert_self k v e
    have hany2 : (upsert k v e).any (fun p => p.1 = k) = true := hc2
    rw [upsert, if_pos hany2]
    conv in upsert k v e => rw [upsert, if_pos hany]
    rw [upsert, if_pos hany, replace_replace]
  · have hany : ¬ e.any (fun p => p.1 = k) = true := hc
    have hc2 : containsKey k (upsert k v e) = true := containsKey_upsert_self k v e
    have hany2 : (upsert k v e).any (fun p => p.1 = k) = true := hc2
    rw [upsert, if_pos hany2]
    conv in upsert k v e => rw [upsert, if_neg hany]
    rw [upsert, if_neg hany, List.map_append, replace_of_not_contains k v e hc]
    simp

theorem lookupKey_reverse_of_nodup (k : String) (l : List (String × α))
    (h : (l.map Prod.fst).Nodup) : lookupKey k l.reverse = lookupKey k l := by
  induction l with
  | nil => rfl
  | cons p t ih =>
    simp only [List.map_cons, List.nodup_cons] at h
    rw [List.reverse_cons, lookupKey_append, ih h.2]
    by_cases hp : p.1 = k
    · have : lookupKey k t = none :=
        lookupKey_eq_none_of_not_mem k t (hp ▸ h.1)
      simp [this, lookupKey, hp]
    · cases ht : lookupKey k t <;> simp [lookupKey, hp, ht]

theorem buildAddBatch_ok (pk : String) (documents : List Doc)
    (h : ∀ d ∈ documents, ∃ v, lookupKey pk d = some v ∧ v ≠ Value.vnull) :
    buildAddBatch pk documents =
      Except.ok (documents.map
        (fun d => ((lookupKey pk d).map goFormatValue |>.getD "", d))) := by
  induction documents with
  | nil => rfl
  | cons d rest ih =>
    rcases h d (by simp) with ⟨v, hv, hvn⟩
    simp only [buildAddBatch, hv]
    rw [if_neg hvn, ih (fun x hx => h x (by simp [hx]))]
    simp [Except.map, hv]


end Bright

namespace Bright

/-! ## The claims -/

/-- C1.  The specification says a committed
`AUTO_CREATE_AND_ADD_DOCUMENTS` entry creates the absent index with
the entry's primary key and then adds the documents as
`ADD_DOCUMENTS` would.  The FSM's dispatch switch has no case for this
variant, so the entry falls to the `default` branch: the FSM returns
the unknown-command error and the store is untouched, while the
spec-modelled semantics would create the index and index both
documents.  Evaluated at the concrete failing input (an empty store, a
two-document `users` payload). -/
theorem c1_fsm_auto_create_unhandled :
    fsmApply (fun _ _ => false)
      (Command.autoCreateAndAddDocuments
        { indexID := "users", primaryKey := "userId",
          documents := [[("userId", Value.vstr "u1"), ("name", Value.vstr "a")],
            [("userId", Value.vstr "u2"), ("name", Value.vstr "b")]] })
      [] =
      ([], Except.error "unknown command type: auto_create_and_add_documents")
    ∧ (specAutoCreateAndAdd
        { indexID := "users", primaryKey := "userId",
          documents := [[("userId", Value.vstr "u1"), ("name", Value.vstr "a")],
            [("userId", Value.vstr "u2"), ("name", Value.vstr "b")]] }
        []).2 = Except.ok ()
    ∧ (specAutoCreateAndAdd
        { indexID := "users", primaryKey := "userId",
          documents := [[("userId", Value.vstr "u1"), ("name", Value.vstr "a")],
            [("userId", Value.vstr "u2"), ("name", Value.vstr "b")]] }
        []).1 ≠ ([] : StoreState) := by
  refine ⟨rfl, rfl, ?_⟩
  intro h
  simp [specAutoCreateAndAdd, CreateIndexInternal, AddDocumentsInternal,
    containsKey, getIndexData, lookupKey, buildAddBatch, setIndexData, upsert,
    Except.map] at h

/-- C4, counterexample.  The claim says zero sample documents produce
the no-candidate error; `DetectPrimaryKey` has a separate early return
for the empty set whose message is
`cannot detect primary key from empty document set`, not the
no-candidate message. -/
theorem c4_counterexample :
    DetectPrimaryKey [] ≠
      Except.error
        "no primary key candidate found (no attribute ending with \x27id\x27)" := by
  intro h
  have h0 : DetectPrimaryKey ([] : List Doc) =
      Except.error "cannot detect primary key from empty document set" := rfl
  rw [h0] at h
  exact absurd (Except.error.inj h) (by decide)

/-- C4, amended.  Primary-key detection collects exactly the
attribute names whose lowercase form ends in `"id"`; with a non-empty
sample set it returns the unique candidate, the no-candidate error when
none exists, and the multiple-candidates error listing the candidates
in lexicographic order when several exist; with zero sample documents
it returns the distinct empty-document-set error. -/
theorem c4_detect_primary_key (documents : List Doc) :
    (DetectPrimaryKey documents =
      if documents = [] then
        Except.error "cannot detect primary key from empty document set"
      else specDetectPrimaryKey documents)
    ∧ (∀ c, c ∈ collectCandidates documents ↔
        (attrEndsInId c = true ∧ ∃ d ∈ documents, c ∈ d.map Prod.fst)) := by
  constructor
  · by_cases hd : documents = []
    · simp [DetectPrimaryKey, hd]
    · cases hcc : collectCandidates documents with
      | nil => simp [DetectPrimaryKey, specDetectPrimaryKey, hd, hcc]
      | cons a t =>
        cases t with
        | nil => simp [DetectPrimaryKey, specDetectPrimaryKey, hd, hcc]
        | cons b t2 => simp [DetectPrimaryKey, specDetectPrimaryKey, hd, hcc]
  · exact mem_collectCandidates documents

/-- C6.  In clustered mode with no known leader the health endpoint
returns 200 while at most 60 seconds have elapsed since process start
and 503 with status `degraded` after more than 60 seconds; whenever a
leader is known, or in standalone mode, it returns 200. -/
theorem c6_health_grace (raftEnabled : Bool) (leaderAddr : String) (elapsedNs : Nat) :
    (elapsedNs ≤ 60 * 1000000000 →
      healthHandler raftEnabled leaderAddr elapsedNs = (200, "ok"))
    ∧ (raftEnabled = true → leaderAddr = "" → elapsedNs > 60 * 1000000000 →
      healthHandler raftEnabled leaderAddr elapsedNs = (503, "degraded"))
    ∧ (leaderAddr ≠ "" → healthHandler raftEnabled leaderAddr elapsedNs = (200, "ok"))
    ∧ (raftEnabled = false →
      healthHandler raftEnabled leaderAddr elapsedNs = (200, "ok")) := by
  refine ⟨?_, ?_, ?_, ?_⟩
  · intro h
    unfold healthHandler
    rw [if_neg]
    rintro ⟨-, -, hgt⟩
    omega
  · intro h1 h2 h3
    unfold healthHandler
    rw [if_pos ⟨by simp [h1], h2, by omega⟩]
  · intro h
    unfold healthHandler
    rw [if_neg]
    rintro ⟨-, hleader, -⟩
    exact h hleader
  · intro h
    unfold healthHandler
    rw [if_neg]
    rintro ⟨henabled, -, -⟩
    rw [h] at henabled
    exact Bool.false_ne_true henabled

/-- C6, witness: clustered, no leader, 30 seconds elapsed, still 200. -/
theorem c6_health_grace_witness :
    healthHandler true "" 30000000000 = (200, "ok") :=
  (c6_health_grace true "" 30000000000).1 (by omega)

/-- C9.  A search request with both a non-empty
`attributesToRetrieve` and a non-empty `attributesToExclude` is
rejected with 400 `CONFLICTING_PARAMETERS` before the index lookup and
the search, for every store, index and query. -/
theorem c9_conflicting_parameters (qsem : String → Doc → Bool) (st : StoreState)
    (indexID : String) (params : SearchParams)
    (h1 : params.attributesToRetrieve ≠ [])
    (h2 : params.attributesToExclude ≠ []) :
    searchHandler qsem st indexID params =
      SearchOutcome.err 400 "CONFLICTING_PARAMETERS" := by
  unfold searchHandler
  rw [if_pos ⟨List.length_pos.mpr h1, List.length_pos.mpr h2⟩]

/-- C9, witness at a concrete request. -/
theorem c9_conflicting_parameters_witness :
    searchHandler (fun _ _ => false) [] "x"
      { q := "*", offset := 0, limit := 20, page := 1, sort := [],
        attributesToRetrieve := ["a"], attributesToExclude := ["b"] } =
      SearchOutcome.err 400 "CONFLICTING_PARAMETERS" :=
  c9_conflicting_parameters (fun _ _ => false) [] "x" _
    (by simp) (by simp)

/-- C10.  Every hit produced by the search handler goes through the
post-processing block, and that block yields an `"id"` field equal to
the stored `"id"` attribute when one exists and to the engine-level
document id otherwise — unless `"id"` is listed in
`attributesToExclude`, in which case it is removed after the
injection. -/
theorem c10_hit_id_injection :
    (∀ (fields : Doc) (hitID : String) (excl : List String),
      lookupKey "id" (processHit fields hitID excl) =
        if "id" ∈ excl then none
        else
          match lookupKey "id" fields with
          | some v => some v
          | none => some (Value.vstr hitID))
    ∧ (∀ (qsem : String → Doc → Bool) (st : StoreState) (indexID : String)
        (params : SearchParams) (hits : List Doc) (th : Nat) (tp : Option Int),
        searchHandler qsem st indexID params = SearchOutcome.ok hits th tp →
        ∀ doc ∈ hits, ∃ fields hitID,
          doc = processHit fields hitID params.attributesToExclude) := by
  constructor
  · intro fields hitID excl
    unfold processHit
    rw [lookupKey_eraseFold]
    by_cases hex : "id" ∈ excl
    · simp [hex]
    · simp only [hex, if_false]
      by_cases hc : containsKey "id" fields
      · rw [if_pos hc]
        cases h : lookupKey "id" fields with
        | some v => rfl
        | none =>
          rw [containsKey_eq_isSome_lookupKey, h] at hc
          simp at hc
      · rw [if_neg hc, lookupKey_upsert, if_pos rfl]
        have h : lookupKey "id" fields = none := by
          cases h : lookupKey "id" fields with
          | none => rfl
          | some v =>
            rw [containsKey_eq_isSome_lookupKey, h] at hc
            simp at hc
        rw [h]
  · intro qsem st indexID params hits th tp h doc hdoc
    unfold searchHandler at h
    by_cases hconf : params.attributesToRetrieve.length > 0 ∧
        params.attributesToExclude.length > 0
    · rw [if_pos hconf] at h
      simp at h
    · rw [if_neg hconf] at h
      cases hidx : getIndexData st indexID with
      | none =>
        rw [hidx] at h
        simp at h
      | some data =>
        rw [hidx] at h
        simp only [SearchOutcome.ok.injEq] at h
        rcases h with ⟨hh, -, -⟩
        rw [← hh] at hdoc
        rcases List.mem_map.mp hdoc with ⟨p, -, hp⟩
        exact ⟨hitFields p.2 params.attributesToRetrieve, p.1, hp.symm⟩

/-- C10, witness: a hit whose stored fields carry no `"id"` gets the
engine id injected. -/
theorem c10_hit_id_injection_witness :
    lookupKey "id" (processHit [("title", Value.vstr "t")] "d1" []) =
      some (Value.vstr "d1") := by
  rw [c10_hit_id_injection.1 [("title", Value.vstr "t")] "d1" []]
  decide

/-- C3, counterexample.  A one-document index queried with `limit = 0`
reports one total hit and no hits, but the computed `totalPages` is
not the claimed `ceil(totalHits/limit)`: the Go code converts the
`+Inf`/`NaN` float quotient to `int`, which the language leaves
implementation-dependent (modelled as no defined value), while the
claimed ceiling at `limit = 0` (read with the usual division-by-zero
convention) would be `0`. -/
theorem c3_counterexample :
    searchHandler (fun _ _ => true)
      [("books",
        { config := { id := "books", primaryKey := "isbn" },
          engine := [("b1", [("isbn", Value.vstr "b1")])] })]
      "books"
      { q := "", offset := 0, limit := 0, page := 1, sort := [],
        attributesToRetrieve := [], attributesToExclude := [] } =
      SearchOutcome.ok [] 1 none
    ∧ (none : Option Int) ≠ some ((specCeilDiv 1 0 : Nat) : Int) := by
  refine ⟨rfl, ?_⟩
  simp

/-- C3, amended.  A search with `limit = 0` (and no parameter
conflict) on an existing index returns zero hits while still reporting
the index's total hits for the query; its `totalPages` is not a
ceiling but the undefined result of the float division by zero.  For
every positive limit the computed `totalPages` is exactly
`ceil(totalHits/limit)`. -/
theorem c3_limit_zero (qsem : String → Doc → Bool) (st : StoreState)
    (indexID : String) (params : SearchParams) (data : IndexData)
    (hidx : getIndexData st indexID = some data)
    (hnoconf : ¬(params.attributesToRetrieve.length > 0 ∧
      params.attributesToExclude.length > 0))
    (hlim : params.limit = 0) :
    searchHandler qsem st indexID params =
      SearchOutcome.ok []
        (engineMatches data.engine
          (if params.q = "" then fun _ => true else qsem params.q)).length
        none
    ∧ (∀ total limit : Nat, 0 < limit →
        goTotalPages total limit = some ((specCeilDiv total limit : Nat) : Int)) := by
  constructor
  · unfold searchHandler
    rw [if_neg hnoconf, hidx]
    simp [searchPage, goTotalPages, hlim]
  · intro total limit hpos
    unfold goTotalPages specCeilDiv
    rw [if_neg (by omega)]
    congr 1
    have h1 : ((total + limit - 1 : Nat) : Int) = (total : Int) + limit - 1 := by
      omega
    rw [Int.ofNat_ediv, h1]

/-- C3, witness: the amended statement at the concrete one-document
index. -/
theorem c3_limit_zero_witness :
    searchHandler (fun _ _ => true)
      [("books",
        { config := { id := "books", primaryKey := "isbn" },
          engine := [("b1", [("isbn", Value.vstr "b1")])] })]
      "books"
      { q := "", offset := 0, limit := 0, page := 1, sort := [],
        attributesToRetrieve := [], attributesToExclude := [] } =
      SearchOutcome.ok [] 1 none := by
  have h := (c3_limit_zero (fun _ _ => true)
    [("books",
      { config := { id := "books", primaryKey := "isbn" },
        engine := [("b1", [("isbn", Value.vstr "b1")])] })]
    "books"
    { q := "", offset := 0, limit := 0, page := 1, sort := [],
      attributesToRetrieve := [], attributesToExclude := [] }
    { config := { id := "books", primaryKey := "isbn" },
      engine := [("b1", [("isbn", Value.vstr "b1")])] }
    rfl (by simp) rfl).1
  simpa using h

/-- C2.  `DELETE_DOCUMENTS` on an existing index: with non-empty
`ids` exactly those ids are removed; otherwise with a non-empty
`filter` the query-string results are paginated in pages of 10000 and
every matching document is removed; with both empty the operation
errors and the store is unchanged. -/
theorem c2_delete_documents (qsem : String → Doc → Bool) (st : StoreState)
    (indexID filter : String) (ids : List String) (data : IndexData)
    (hidx : getIndexData st indexID = some data)
    (hnd : (data.engine.map Prod.fst).Nodup) :
    (ids ≠ [] →
      (DeleteDocumentsInternal qsem st indexID filter ids).2 = Except.ok () ∧
      ∀ k, engineLookup (DeleteDocumentsInternal qsem st indexID filter ids).1
          indexID k =
        if k ∈ ids then none else engineLookup st indexID k)
    ∧ (ids = [] → filter ≠ "" →
      (DeleteDocumentsInternal qsem st indexID filter ids).2 = Except.ok () ∧
      ∀ k d, lookupKey k data.engine = some d →
        engineLookup (DeleteDocumentsInternal qsem st indexID filter ids).1
            indexID k =
          if qsem filter d then none else some d)
    ∧ (ids = [] → filter = "" →
      DeleteDocumentsInternal qsem st indexID filter ids =
        (st, Except.error
          "must provide ids or filter parameter to delete documents")) := by
  have hengine : engineLookup st indexID = fun k => lookupKey k data.engine := by
    funext k
    unfold engineLookup
    rw [hidx]
  refine ⟨?_, ?_, ?_⟩
  · intro hne
    have hlen : ids.length > 0 := List.length_pos.mpr hne
    unfold DeleteDocumentsInternal
    rw [hidx]
    simp only [hlen, if_true, gt_iff_lt]
    refine ⟨trivial, ?_⟩
    intro k
    rw [engineLookup_setIndexData, hengine]
    exact lookupKey_eraseFold ids k data.engine
  · intro hids hf
    subst hids
    unfold DeleteDocumentsInternal
    rw [hidx]
    simp only [List.length_nil, gt_iff_lt, Nat.lt_irrefl, if_false, hf,
      ne_eq, not_false_eq_true, if_true]
    refine ⟨trivial, ?_⟩
    intro k d hkd
    rw [engineLookup_setIndexData]
    rw [collectPages_eq (engineMatches data.engine (qsem filter)) 10000
      (by omega) _ 0 (by omega)]
    simp only [List.drop_zero]
    rw [lookupKey_eraseFold]
    by_cases hpred : qsem filter d
    · rw [if_pos ((mem_engineMatches_keys data.engine (qsem filter) k d
        hnd hkd).mpr hpred), if_pos hpred]
    · rw [if_neg (fun hmem => hpred ((mem_engineMatches_keys data.engine
        (qsem filter) k d hnd hkd).mp hmem)), if_neg hpred, hkd]
  · intro hids hf
    subst hids
    subst hf
    unfold DeleteDocumentsInternal
    rw [hidx]
    simp

/-- C2, witness: deleting one of two documents by id. -/
theorem c2_delete_documents_witness :
    (DeleteDocumentsInternal (fun _ _ => false)
      [("books",
        { config := { id := "books", primaryKey := "isbn" },
          engine := [("b1", [("isbn", Value.vstr "b1")]),
            ("b2", [("isbn", Value.vstr "b2")])] })]
      "books" "" ["b1"]).2 = Except.ok ()
    ∧ engineLookup (DeleteDocumentsInternal (fun _ _ => false)
        [("books",
          { config := { id := "books", primaryKey := "isbn" },
            engine := [("b1", [("isbn", Value.vstr "b1")]),
              ("b2", [("isbn", Value.vstr "b2")])] })]
        "books" "" ["b1"]).1 "books" "b1" = none := by
  have h := (c2_delete_documents (fun _ _ => false)
    [("books",
      { config := { id := "books", primaryKey := "isbn" },
        engine := [("b1", [("isbn", Value.vstr "b1")]),
          ("b2", [("isbn", Value.vstr "b2")])] })]
    "books" "" ["b1"]
    { config := { id := "books", primaryKey := "isbn" },
      engine := [("b1", [("isbn", Value.vstr "b1")]),
        ("b2", [("isbn", Value.vstr "b2")])] }
    rfl (by decide)).1 (by simp)
  refine ⟨h.1, ?_⟩
  rw [h.2 "b1"]
  simp

/-- C5.  `UPDATE_DOCUMENT` on an existing index: the existing document
is fetched by its engine-level id, the updates are shallow-merged over
its fields (updated keys replace, all other fields are kept), and the
merged document is re-upserted under the same id; when no document
with that id exists the operation returns the not-found error and the
store is unchanged. -/
theorem c5_update_document (st : StoreState) (indexID documentID : String)
    (updates : Doc) (data : IndexData)
    (hidx : getIndexData st indexID = some data)
    (hupd : (updates.map Prod.fst).Nodup) :
    (∀ existing, lookupKey documentID data.engine = some existing →
      (UpdateDocumentInternal st indexID documentID updates).2 = Except.ok () ∧
      engineLookup (UpdateDocumentInternal st indexID documentID updates).1
          indexID documentID = some (mergeDoc existing updates) ∧
      (∀ k, k ≠ documentID →
        engineLookup (UpdateDocumentInternal st indexID documentID updates).1
            indexID k = engineLookup st indexID k) ∧
      (∀ a, lookupKey a (mergeDoc existing updates) =
        match lookupKey a updates with
        | some v => some v
        | none => lookupKey a existing))
    ∧ (lookupKey documentID data.engine = none →
      UpdateDocumentInternal st indexID documentID updates =
        (st, Except.error "document not found")) := by
  have hengine : engineLookup st indexID = fun k => lookupKey k data.engine := by
    funext k
    unfold engineLookup
    rw [hidx]
  constructor
  · intro existing hex
    unfold UpdateDocumentInternal
    simp only [hidx, hex]
    refine ⟨trivial, ?_, ?_, ?_⟩
    · rw [engineLookup_setIndexData, lookupKey_upsert, if_pos rfl]
    · intro k hk
      rw [engineLookup_setIndexData, lookupKey_upsert, if_neg hk, hengine]
    · intro a
      unfold mergeDoc
      rw [lookupKey_applyBatch, lookupKey_reverse_of_nodup a updates hupd]
      cases lookupKey a updates <;> rfl
  · intro hnone
    unfold UpdateDocumentInternal
    simp only [hidx, hnone]

/-- C5, witness: merging a title update over a stored document. -/
theorem c5_update_document_witness :
    engineLookup (UpdateDocumentInternal
      [("books",
        { config := { id := "books", primaryKey := "isbn" },
          engine := [("b1", [("isbn", Value.vstr "b1"),
            ("title", Value.vstr "old")])] })]
      "books" "b1" [("title", Value.vstr "new")]).1 "books" "b1" =
      some (mergeDoc [("isbn", Value.vstr "b1"), ("title", Value.vstr "old")]
        [("title", Value.vstr "new")]) := by
  exact ((c5_update_document
    [("books",
      { config := { id := "books", primaryKey := "isbn" },
        engine := [("b1", [("isbn", Value.vstr "b1"),
          ("title", Value.vstr "old")])] })]
    "books" "b1" [("title", Value.vstr "new")]
    { config := { id := "books", primaryKey := "isbn" },
      engine := [("b1", [("isbn", Value.vstr "b1"),
        ("title", Value.vstr "old")])] }
    rfl (by decide)).1
    [("isbn", Value.vstr "b1"), ("title", Value.vstr "old")] rfl).2.1

/-- C8.  `ADD_DOCUMENTS` whose documents all carry a non-null
primary-key value upserts each document under the string coercion of
that value, so applying the same command twice yields the state of
applying it once. -/
theorem c8_add_documents_idempotent (st : StoreState) (indexID : String)
    (documents : List Doc) (data : IndexData)
    (hidx : getIndexData st indexID = some data)
    (hnd : (data.engine.map Prod.fst).Nodup)
    (hpk : ∀ d ∈ documents, ∃ v,
      lookupKey data.config.primaryKey d = some v ∧ v ≠ Value.vnull) :
    (AddDocumentsInternal st indexID documents).2 = Except.ok ()
    ∧ AddDocumentsInternal (AddDocumentsInternal st indexID documents).1
        indexID documents =
      ((AddDocumentsInternal st indexID documents).1, Except.ok ()) := by
  have hbatch := buildAddBatch_ok data.config.primaryKey documents hpk
  set ps := documents.map (fun d =>
    ((lookupKey data.config.primaryKey d).map goFormatValue |>.getD "", d))
    with hps
  set d1 : IndexData := { data with engine := applyBatch data.engine ps } with hd1
  have h1 : AddDocumentsInternal st indexID documents =
      (setIndexData st indexID d1, Except.ok ()) := by
    unfold AddDocumentsInternal
    simp only [hidx, hbatch]
  rw [h1]
  refine ⟨rfl, ?_⟩
  have hidx2 : getIndexData (setIndexData st indexID d1) indexID = some d1 := by
    unfold getIndexData setIndexData
    rw [lookupKey_upsert]
    simp
  have hcfg : d1.config.primaryKey = data.config.primaryKey := rfl
  have hbatch2 : buildAddBatch d1.config.primaryKey documents = Except.ok ps := by
    rw [hcfg]
    exact hbatch
  have he : applyBatch d1.engine ps = d1.engine := by
    rw [hd1]
    exact applyBatch_idem data.engine ps hnd
  have hrec : ({ d1 with engine := applyBatch d1.engine ps } : IndexData) = d1 := by
    rw [he]
  unfold AddDocumentsInternal
  simp only [hidx2, hbatch2, hrec]
  unfold setIndexData
  rw [upsert_upsert_same]

/-- C8, witness: re-adding the same one-document batch leaves the
state identical. -/
theorem c8_add_documents_idempotent_witness :
    AddDocumentsInternal (AddDocumentsInternal
      [("books",
        { config := { id := "books", primaryKey := "isbn" },
          engine := [] })]
      "books" [[("isbn", Value.vstr "b1"), ("title", Value.vstr "t")]]).1
      "books" [[("isbn", Value.vstr "b1"), ("title", Value.vstr "t")]] =
    ((AddDocumentsInternal
      [("books",
        { config := { id := "books", primaryKey := "isbn" },
          engine := [] })]
      "books" [[("isbn", Value.vstr "b1"), ("title", Value.vstr "t")]]).1,
      Except.ok ()) :=
  (c8_add_documents_idempotent
    [("books",
      { config := { id := "books", primaryKey := "isbn" }, engine := [] })]
    "books" [[("isbn", Value.vstr "b1"), ("title", Value.vstr "t")]]
    { config := { id := "books", primaryKey := "isbn" }, engine := [] }
    rfl (by decide)
    (by
      intro d hd
      simp only [List.mem_singleton] at hd
      exact ⟨Value.vstr "b1", by rw [hd]; exact ⟨rfl, by decide⟩⟩)).2

theorem filter_lt_pivot_of_sorted (t : List (String × Doc)) :
    ∀ (i : Nat) (h : i < t.length),
    (t.map Prod.fst).Pairwise (· < ·) →
    t.filter (fun r => decide ((t.get ⟨i, h⟩).1 < r.1)) = t.drop (i + 1) := by
  induction t with
  | nil =>
    intro i h
    simp at h
  | cons p l ih =>
    intro i h hs
    simp only [List.map_cons, List.pairwise_cons] at hs
    cases i with
    | zero =>
      simp only [List.get, List.filter_cons]
      rw [if_neg (by simp)]
      rw [List.filter_eq_self.mpr]
      · simp
      · intro r hr
        exact decide_eq_true (hs.1 r.1 (List.mem_map_of_mem Prod.fst hr))
    | succ j =>
      have hj : j < l.length := by simpa using h
      have hget : (p :: l).get ⟨j + 1, h⟩ = l.get ⟨j, hj⟩ := rfl
      rw [hget]
      simp only [List.filter_cons]
      rw [if_neg]
      · have := ih j hj hs.2
        rw [this]
        rfl
      · have hpx : p.1 < (l.get ⟨j, hj⟩).1 :=
          hs.1 (l.get ⟨j, hj⟩).1
            (List.mem_map_of_mem Prod.fst (l.get_mem j hj))
        simp only [decide_eq_true_eq]
        exact lt_asymm hpx

theorem rowsAfter_advance (t : List Row)
    (hs : (t.map Prod.fst).Pairwise (· < ·))
    (hne : ∀ r ∈ t, r.1 ≠ "")
    (k n : Nat) (hn : 1 ≤ n) (hkn : k + n ≤ t.length) :
    rowsAfter t (((((t.drop k).take n).getLast?).map Prod.fst).getD "") =
      t.drop (k + n) := by
  have hidx : k + n - 1 < t.length := by omega
  have hlast : ((t.drop k).take n).getLast? = some (t.get ⟨k + n - 1, hidx⟩) := by
    have hlen : ((t.drop k).take n).length = n := by
      rw [List.length_take, List.length_drop]
      omega
    rw [List.getLast?_eq_getElem?, hlen]
    rw [List.getElem?_take, if_pos (by omega : n - 1 < n)]
    rw [List.getElem?_drop]
    have hix : k + (n - 1) = k + n - 1 := by omega
    rw [hix, List.getElem?_eq_getElem hidx]
    rfl
  rw [hlast]
  show rowsAfter t (t.get ⟨k + n - 1, hidx⟩).1 = t.drop (k + n)
  have hnz : (t.get ⟨k + n - 1, hidx⟩).1 ≠ "" :=
    hne _ (t.get_mem (k + n - 1) hidx)
  unfold rowsAfter
  rw [if_neg hnz]
  have := filter_lt_pivot_of_sorted t (k + n - 1) hidx hs
  rw [this]
  congr 1
  omega

theorem fullSyncLoop_spec (t : List Row) (bs : Nat) (hbs : 1 ≤ bs)
    (hs : (t.map Prod.fst).Pairwise (· < ·))
    (hne : ∀ r ∈ t, r.1 ≠ "") :
    ∀ (fuel k : Nat) (st : PollerState) (acc : List (List Row)),
      rowsAfter t st.lastID = t.drop k →
      (t.length - k) + 1 ≤ fuel →
      ∃ st1 bat, fullSyncLoop t bs fuel st acc = some (st1, acc ++ bat)
        ∧ bat.flatten = t.drop k
        ∧ ∀ b ∈ bat, b.length ≤ bs := by
  intro fuel
  induction fuel with
  | zero =>
    intro k st acc hcur hfuel
    omega
  | succ fuel ih =>
    intro k st acc hcur hfuel
    have hfetch : fetchBatch t st.lastID bs =
        ((t.drop k).take bs,
          (((((t.drop k).take bs).getLast?).map Prod.fst)).getD "") := by
      unfold fetchBatch
      rw [hcur]
    by_cases h0 : ((t.drop k).take bs).length = 0
    · have hdk : t.drop k = [] := by
        rw [List.length_take, List.length_drop] at h0
        have : t.length - k = 0 := by omega
        apply List.eq_nil_of_length_eq_zero
        rw [List.length_drop]
        exact this
      refine ⟨st, [], ?_, by simp [hdk], by simp⟩
      simp only [fullSyncLoop, hfetch, h0, if_true, List.append_nil]
    · by_cases h1 : ((t.drop k).take bs).length < bs
      · have htake : (t.drop k).take bs = t.drop k := by
          apply List.take_of_length_le
          rw [List.length_take] at h1
          omega
        refine ⟨{ st with lastID :=
            (((((t.drop k).take bs).getLast?).map Prod.fst)).getD "" },
          [(t.drop k).take bs], ?_, by simp [htake], ?_⟩
        · simp only [fullSyncLoop, hfetch, h0, if_false, h1, if_true]
        · intro b hb
          simp only [List.mem_singleton] at hb
          subst hb
          rw [List.length_take]
          omega
      · have hlen : ((t.drop k).take bs).length = bs := by
          rw [List.length_take] at h1 ⊢
          omega
        have hkbs : k + bs ≤ t.length := by
          rw [List.length_take, List.length_drop] at hlen
          omega
        have hcur2 : rowsAfter t
            ({ st with lastID :=
              (((((t.drop k).take bs).getLast?).map Prod.fst)).getD "" }).lastID =
            t.drop (k + bs) :=
          rowsAfter_advance t hs hne k bs hbs hkbs
        have hfuel2 : (t.length - (k + bs)) + 1 ≤ fuel := by omega
        obtain ⟨st1, bat, hres, hjoin, hlens⟩ :=
          ih (k + bs)
            { st with lastID :=
              (((((t.drop k).take bs).getLast?).map Prod.fst)).getD "" }
            (acc ++ [(t.drop k).take bs]) hcur2 hfuel2
        refine ⟨st1, (t.drop k).take bs :: bat, ?_, ?_, ?_⟩
        · simp only [fullSyncLoop, hfetch, h0, if_false, h1]
          rw [hres, List.append_assoc]
          rfl
        · rw [List.flatten_cons, hjoin]
          rw [show t.drop (k + bs) = (t.drop k).drop bs from by
            rw [List.drop_drop]]
          exact List.take_append_drop bs (t.drop k)
        · intro b hb
          rcases List.mem_cons.mp hb with rfl | hb
          · omega
          · exact hlens b hb

end Bright

namespace Bright

/-- C7.  A full sync fetches batches of at most `batch_size` rows in
primary-key order strictly after the in-memory `last_id` cursor,
delivers each batch and advances the cursor, and after the final
(short or empty) batch sets `full_sync_complete = true`, clears
`last_id` and stamps `last_sync_at` with the current wall clock; the
delivered batches cover exactly the rows after the starting cursor,
and every subsequent poll dispatches to the incremental sync. -/
theorem c7_full_sync (table : List Row) (batchSize fuel now k : Nat)
    (st : PollerState)
    (hs : (table.map Prod.fst).Pairwise (· < ·))
    (hne : ∀ r ∈ table, r.1 ≠ "")
    (hbs : 1 ≤ batchSize)
    (hcur : rowsAfter table st.lastID = table.drop k)
    (hfuel : table.length + 1 ≤ fuel) :
    ∃ st1 bat, fullSync table batchSize fuel now st = some (st1, bat)
      ∧ st1.fullSyncComplete = true
      ∧ st1.lastID = ""
      ∧ st1.lastSyncAt = now
      ∧ bat.flatten = table.drop k
      ∧ (∀ b ∈ bat, b.length ≤ batchSize)
      ∧ pollKind st1 = PollKind.incremental := by
  obtain ⟨stm, bat, hres, hjoin, hlens⟩ :=
    fullSyncLoop_spec table batchSize hbs hs hne fuel k st [] hcur (by omega)
  refine ⟨{ lastSyncAt := now, lastID := "", fullSyncComplete := true }, bat,
    ?_, rfl, rfl, rfl, hjoin, hlens, rfl⟩
  unfold fullSync
  rw [hres]
  rfl

/-- C7, witness: a two-row table synced with batch size 1 from an
empty cursor. -/
theorem c7_full_sync_witness :
    ∃ st1 bat,
      fullSync [("a", ([] : Doc)), ("b", ([] : Doc))] 1 3 5
        { lastSyncAt := 0, lastID := "", fullSyncComplete := false } =
        some (st1, bat)
      ∧ st1.fullSyncComplete = true
      ∧ st1.lastID = ""
      ∧ st1.lastSyncAt = 5
      ∧ bat.flatten = [("a", ([] : Doc)), ("b", ([] : Doc))]
      ∧ (∀ b ∈ bat, b.length ≤ 1)
      ∧ pollKind st1 = PollKind.incremental := by
  have h := c7_full_sync [("a", ([] : Doc)), ("b", ([] : Doc))] 1 3 5 0
    { lastSyncAt := 0, lastID := "", fullSyncComplete := false }
    (by simp [List.pairwise_cons]; decide)
    (by intro r hr; simp at hr; rcases hr with rfl | rfl <;> decide)
    (by omega) rfl (by simp)
  simpa using h

end Bright
